import Mathlib

/-!
Verification of the ttk terminal widget toolkit.

This file shallowly embeds the parts of the ttk Go package that the
specification's testable claims are about: the ANSI escape-sequence codec
(`Color`, `DecodeColor`, `EscapedLen`, `Unescape` in ttk.go), the window
print routine (`Window.printf` in window.go), the `Edit` widget state
machine (edit.go), the `List` widget paging logic (list.go) and the window
focus navigation (window.go).

Go strings are modelled as `List Char` (rune sequences).  The escape
sequences the codec ever consumes successfully are pure ASCII, so byte
offsets and rune offsets coincide on every consumed prefix and the rune
model is faithful.  Go `int` values are modelled as `Int`; slice
expressions that would panic at runtime make the modelled operation return
`none`.  Loops that advance by a decoded skip are modelled with an explicit
fuel argument equal to the input length, which is always sufficient
because a successful decode consumes at least one character.
-/

namespace ttk

/-- The escape character `'\x1b'`. -/
def escCh : Char := Char.ofNat 27

/-! ### Constants from ttk.go lines 19-38 and the termbox attribute bits. -/

def ANSIFg : Int := 30

def ANSIBg : Int := 40

def AttrNA : Int := -1

def AttrReset : Int := 0

def AttrBold : Int := 1

def AttrUnderline : Int := 3

def AttrReverse : Int := 7

def ColorBlack : Int := 0

def ColorRed : Int := 1

def ColorWhite : Int := 7

/-- termbox-go `AttrBold = 1 << 9`. -/
def termboxBold : Nat := 512

/-- termbox-go `AttrUnderline = 1 << 10`. -/
def termboxUnderline : Nat := 1024

/-- termbox-go `AttrReverse = 1 << 11`. -/
def termboxReverse : Nat := 2048

/-- `Attributes` (ttk.go lines 217-220): foreground and background
termbox attribute words. -/
structure Attributes where
  Fg : Nat
  Bg : Nat
deriving DecidableEq, Repr

/-- Package global `fg` default; `termbox.ColorDefault = 0`, set in `Init`
and as the zero value. -/
def fgDefault : Nat := 0

/-- Package global `bg` default; `termbox.ColorDefault = 0`. -/
def bgDefault : Nat := 0

/-- Errors returned by `Color` (ttk.go lines 41-46). -/
inductive EncodeErr
  | invalidColor
  | invalidAttribute
  | invalidForeground
  | invalidBackground
deriving DecidableEq, Repr

/-- Errors returned by `DecodeColor`: either `ErrNotEscSequence`, or the
error propagated unchanged from `strconv.Atoi` at ttk.go line 120 (both
the syntax and the range error of `Atoi` are collapsed into `atoiErr`;
the claims only distinguish them from `notEscSequence`). -/
inductive DecodeErr
  | notEscSequence
  | atoiErr
deriving DecidableEq, Repr

/-! ### Decimal formatting (`fmt.Sprintf("%v", n)` for Go ints). -/

def digitCh (n : Nat) : Char := Char.ofNat (48 + n)

/-- Decimal digits of `n`, most significant first; fuel-driven so that the
kernel can evaluate it (`fuel = n + 1` always suffices). -/
def natCharsAux : Nat → Nat → List Char
  | 0, _ => []
  | fuel + 1, n =>
      if n < 10 then [digitCh n]
      else natCharsAux fuel (n / 10) ++ [digitCh (n % 10)]

def natChars (n : Nat) : List Char := natCharsAux (n + 1) n

/-- `fmt.Sprintf("%v", i)` for a Go int. -/
def intChars (i : Int) : List Char :=
  if i < 0 then '-' :: natChars i.natAbs else natChars i.toNat

/-! ### `Color` (ttk.go lines 50-91). -/

/-- `Color(at, fg, bg)`: builds `"\x1b[" + a + f + b` where each present
field is `"<n>;"`, then replaces the final `';'` with `'m'`
(`es[:len(es)-1] + "m"`, modelled by `dropLast ++ ['m']`).  The Go
parameter `at` is named `atr` here because `at` is a Lean keyword. -/
def Color (atr fg bg : Int) : Except EncodeErr (List Char) := do
  if atr = AttrNA ∧ fg = AttrNA ∧ bg = AttrNA then
    throw EncodeErr.invalidColor
  let a ←
    if atr = AttrNA then pure ([] : List Char)
    else if atr = AttrBold ∨ atr = AttrUnderline ∨ atr = AttrReverse ∨ atr = AttrReset then
      pure (intChars atr ++ [';'])
    else throw EncodeErr.invalidAttribute
  let f ←
    if fg = AttrNA then pure ([] : List Char)
    else if ColorBlack ≤ fg ∧ fg ≤ ColorWhite then
      pure (intChars (fg + ANSIFg) ++ [';'])
    else throw EncodeErr.invalidForeground
  let b ←
    if bg = AttrNA then pure ([] : List Char)
    else if ColorBlack ≤ bg ∧ bg ≤ ColorWhite then
      pure (intChars (bg + ANSIBg) ++ [';'])
    else throw EncodeErr.invalidBackground
  let es := escCh :: '[' :: (a ++ f ++ b)
  pure (es.dropLast ++ ['m'])

/-! ### `strconv.Atoi`. -/

def isDigitCh (c : Char) : Bool := '0' ≤ c ∧ c ≤ '9'

/-- Value of a digit string; `none` if any character is not a decimal
digit. -/
def digitsValAux : List Char → Nat → Option Nat
  | [], acc => some acc
  | c :: rest, acc =>
      if isDigitCh c then digitsValAux rest (acc * 10 + (c.toNat - 48))
      else none

/-- 2^63 - 1, the largest Go int on a 64-bit platform. -/
def maxGoInt : Nat := 9223372036854775807

/-- `strconv.Atoi`: optional single sign, then one or more decimal digits;
values outside the 64-bit int range yield `ErrRange`, which like the
syntax error makes `Atoi` return a non-nil error (`none` here). -/
def atoi (s : List Char) : Option Int :=
  match s with
  | [] => none
  | '+' :: rest =>
      if rest = [] then none
      else (digitsValAux rest 0).bind fun n =>
        if n ≤ maxGoInt then some (Int.ofNat n) else none
  | '-' :: rest =>
      if rest = [] then none
      else (digitsValAux rest 0).bind fun n =>
        if n ≤ maxGoInt + 1 then some (-(Int.ofNat n)) else none
  | _ =>
      (digitsValAux s 0).bind fun n =>
        if n ≤ maxGoInt then some (Int.ofNat n) else none

/-! ### `DecodeColor` (ttk.go lines 98-156). -/

/-- The parameter loop of `DecodeColor` (ttk.go lines 113-142): strips a
trailing `'m'` (recording that it was seen), runs `Atoi`, and folds the
recognized field values into the accumulated `Attributes`.  `dfg`/`dbg`
are the package globals `fg`/`bg` restored by the reset code. -/
def procParams (dfg dbg : Nat) :
    List (List Char) → Attributes → Bool → Except DecodeErr (Attributes × Bool)
  | [], a, foundM => Except.ok (a, foundM)
  | v :: rest, a, foundM =>
      let p := if v.getLast? = some 'm' then (v.dropLast, true) else (v, foundM)
      match atoi p.1 with
      | none => Except.error DecodeErr.atoiErr
      | some n =>
          if n = AttrReset then procParams dfg dbg rest ⟨dfg, dbg⟩ p.2
          else if n = AttrBold then procParams dfg dbg rest ⟨a.Fg ||| termboxBold, a.Bg⟩ p.2
          else if n = AttrUnderline then procParams dfg dbg rest ⟨a.Fg ||| termboxUnderline, a.Bg⟩ p.2
          else if n = AttrReverse then procParams dfg dbg rest ⟨a.Fg ||| termboxReverse, a.Bg⟩ p.2
          else if ColorBlack + ANSIFg ≤ n ∧ n ≤ ColorWhite + ANSIFg then
            procParams dfg dbg rest ⟨a.Fg ||| (n - ANSIFg + 1).toNat, a.Bg⟩ p.2
          else if ColorBlack + ANSIBg ≤ n ∧ n ≤ ColorWhite + ANSIBg then
            procParams dfg dbg rest ⟨a.Fg, a.Bg ||| (n - ANSIBg + 1).toNat⟩ p.2
          else Except.error DecodeErr.notEscSequence

/-- `DecodeColor(esc)` with explicit default colors: checks the
`"\x1b["` marker, finds the first `'m'` after it, splits the fields on
`';'` (the slice `esc[2 : i+2+1]` is `(esc.drop 2).take (i+1)`), folds
them, and returns the decoded `Attributes` together with
`skip = strings.Index(esc, "m") + 1`. -/
def decodeColorWith (dfg dbg : Nat) (esc : List Char) :
    Except DecodeErr (Attributes × Nat) :=
  if esc.take 2 ≠ [escCh, '['] then Except.error DecodeErr.notEscSequence
  else
    match (esc.drop 2).findIdx? (· = 'm') with
    | none => Except.error DecodeErr.notEscSequence
    | some i =>
        let parameters := ((esc.drop 2).take (i + 1)).splitOn ';'
        match procParams dfg dbg parameters ⟨0, 0⟩ false with
        | Except.error e => Except.error e
        | Except.ok (a, foundM) =>
            if foundM = false then Except.error DecodeErr.notEscSequence
            else
              match esc.findIdx? (· = 'm') with
              | none => Except.error DecodeErr.notEscSequence
              | some skip => Except.ok (a, skip + 1)

/-- `DecodeColor` at the package defaults. -/
def DecodeColor (esc : List Char) : Except DecodeErr (Attributes × Nat) :=
  decodeColorWith fgDefault bgDefault esc

/-- The `strings.HasSuffix(v, "m")` stripping a parameter undergoes before
`Atoi` (ttk.go lines 114-117). -/
def stripM (v : List Char) : List Char :=
  if v.getLast? = some 'm' then v.dropLast else v

/-- Whether a parsed field value is recognized by the `switch` of
`DecodeColor` (ttk.go lines 122-141): reset, bold, underline, reverse, or
a foreground/background color code. -/
def recognizedB (n : Int) : Bool :=
  n = AttrReset ∨ n = AttrBold ∨ n = AttrUnderline ∨ n = AttrReverse ∨
  (ColorBlack + ANSIFg ≤ n ∧ n ≤ ColorWhite + ANSIFg) ∨
  (ColorBlack + ANSIBg ≤ n ∧ n ≤ ColorWhite + ANSIBg)

/-- The semicolon-separated parameter list `DecodeColor` folds over:
`strings.Split(esc[2 : i+2+1], ";")` for `i` the index of the first `'m'`
after the marker (empty when there is no terminator). -/
def paramsOf (esc : List Char) : List (List Char) :=
  match (esc.drop 2).findIdx? (· = 'm') with
  | none => []
  | some i => ((esc.drop 2).take (i + 1)).splitOn ';'

def exceptOk {ε α : Type} : Except ε α → Bool
  | Except.ok _ => true
  | Except.error _ => false

/-! ### `Unescape` (ttk.go lines 183-204). -/

/-- The scanning loop of `Unescape` with explicit fuel.  At every escape
character a decode is attempted: on success the whole sequence is skipped,
on failure the escape character itself is re-emitted as a literal.  Fuel
equal to the string length always suffices because a successful decode
skips at least one character. -/
def unescapeFuel : Nat → List Char → List Char
  | 0, _ => []
  | _ + 1, [] => []
  | fuel + 1, c :: rest =>
      if c = escCh then
        match DecodeColor (c :: rest) with
        | Except.ok (_, skip) => unescapeFuel fuel ((c :: rest).drop skip)
        | Except.error _ => c :: unescapeFuel fuel rest
      else c :: unescapeFuel fuel rest

/-- `Unescape(s)`: the string with every well-formed escape sequence
removed. -/
def Unescape (s : List Char) : List Char := unescapeFuel s.length s

/-! ### Claim C1: encode/decode round trip. -/

/-- Spec-side direct construction of the `Attributes` value for a valid
`(attribute, foreground, background)` triple, following the claim's words:
bold/underline/reverse are OR-ed into `Fg` (reset contributes the default,
`0`), and color indices are offset by one for termbox. -/
def specAttributes (atr fg bg : Int) : Attributes :=
  { Fg :=
      (if atr = AttrBold then termboxBold
       else if atr = AttrUnderline then termboxUnderline
       else if atr = AttrReverse then termboxReverse
       else 0) |||
      (if fg = AttrNA then 0 else (fg + 1).toNat)
    Bg := if bg = AttrNA then 0 else (bg + 1).toNat }

/-- Executable check of one round-trip instance: `Color` succeeds and
`DecodeColor` of its output returns the directly constructed attributes
and a skip equal to the full encoded length. -/
def roundTripOK (atr fg bg : Int) : Bool :=
  match Color atr fg bg with
  | Except.error _ => false
  | Except.ok s =>
      match DecodeColor s with
      | Except.error _ => false
      | Except.ok (a, skip) => a == specAttributes atr fg bg && skip == s.length

/-! ### Claim C2: error behavior of `DecodeColor`. -/

instance {ε α : Type} [DecidableEq ε] [DecidableEq α] : DecidableEq (Except ε α) :=
  fun x y =>
    match x, y with
    | Except.ok a, Except.ok b =>
        if h : a = b then isTrue (by rw [h])
        else isFalse (by intro hc; cases hc; exact h rfl)
    | Except.ok _, Except.error _ => isFalse (by intro hc; cases hc)
    | Except.error _, Except.ok _ => isFalse (by intro hc; cases hc)
    | Except.error e, Except.error f =>
        if h : e = f then isTrue (by rw [h])
        else isFalse (by intro hc; cases hc; exact h rfl)

/-- `decodableAll s`: every suffix of `s` that starts with the escape
character decodes successfully.  This is the well-formedness condition of
the amended C3. -/
def decodableAll (s : List Char) : Prop :=
  ∀ t ∈ s.tails, t.head? = some escCh → exceptOk (DecodeColor t) = true

instance (s : List Char) : Decidable (decodableAll s) := by
  unfold decodableAll
  infer_instance

/-! ### Claim C5: `Window.printf` (window.go lines 53-85). -/

/-- One `setCell` call issued by `printf`: target coordinates, the glyph,
and the attributes active at the write. -/
structure CellWrite where
  x : Int
  y : Int
  ch : Char
  Fg : Nat
  Bg : Nat
deriving DecidableEq, Repr

/-- The loop of `Window.printf` after formatting: walks the string,
breaking as soon as `x + xx + 1 > mx` (where `mx = w.x - x`), decoding
escape sequences inline into the running attributes, and emitting a cell
write for every other rune.  Returns the sequence of `setCell` calls. -/
def printfAux : Nat → Int → Int → Int → Int → Nat → Nat → List Char → List CellWrite
  | 0, _, _, _, _, _, _, _ => []
  | _ + 1, _, _, _, _, _, _, [] => []
  | fuel + 1, mx, x, y, xx, cFg, cBg, v :: rest =>
      if x + xx + 1 > mx then []
      else if v = escCh then
        match DecodeColor (v :: rest) with
        | Except.ok (cc, skip) =>
            printfAux fuel mx x y xx cc.Fg cc.Bg ((v :: rest).drop skip)
        | Except.error _ =>
            ⟨x + xx, y, v, cFg, cBg⟩ :: printfAux fuel mx x y (xx + 1) cFg cBg rest
      else ⟨x + xx, y, v, cFg, cBg⟩ :: printfAux fuel mx x y (xx + 1) cFg cBg rest

/-- `Window.printf(x, y, a, out)` on a window of width `wx`, with `out`
the already-formatted string: the sequence of cell writes it performs. -/
def printfGo (wx x y : Int) (a : Attributes) (out : List Char) : List CellWrite :=
  printfAux out.length (wx - x) x y 0 a.Fg a.Bg out

/-- The column sequence `b, b+1, ..., b+n-1`. -/
def colSeq : Int → Nat → List Int
  | _, 0 => []
  | b, n + 1 => b :: colSeq (b + 1) n

/-- The attribute-annotated glyph stream of a string: the `Unescape` scan
extended to record, with each emitted glyph, the attributes active at that
point — a successfully decoded escape sequence emits nothing and only
switches the running attributes; a failed decode re-emits the escape
character under the current attributes. -/
def attrFuel : Nat → Attributes → List Char → List (Char × Attributes)
  | 0, _, _ => []
  | _ + 1, _, [] => []
  | fuel + 1, a, c :: rest =>
      if c = escCh then
        match DecodeColor (c :: rest) with
        | Except.ok (cc, skip) => attrFuel fuel cc ((c :: rest).drop skip)
        | Except.error _ => (c, a) :: attrFuel fuel a rest
      else (c, a) :: attrFuel fuel a rest

/-- The annotated glyph stream starting from attributes `a`. -/
def attrWrites (a : Attributes) (s : List Char) : List (Char × Attributes) :=
  attrFuel s.length a s

/-- The concrete text of the C5 witness: a glyph, a red escape sequence,
a glyph. -/
def c5out : List Char := ['a', escCh, '[', '3', '1', 'm', 'b']

/-! ### Edit widget (edit.go): claims C4, C6, C10. -/

/-- termbox-go key codes used by `Edit.KeyHandler`. -/
def keyCtrlA : Nat := 1

def keyCtrlE : Nat := 5

def keyEnter : Nat := 13

def keyCtrlU : Nat := 21

def keySpace : Nat := 32

def keyBackspace : Nat := 8

def keyBackspace2 : Nat := 127

def keyHome : Nat := 65521

def keyEnd : Nat := 65520

def keyDelete : Nat := 65522

def keyArrowLeft : Nat := 65515

def keyArrowRight : Nat := 65514

/-- A termbox key event as seen by `Edit.KeyHandler`: modifier, special
key code and rune (the Go rune 0 sentinel is `Char.ofNat 0`). -/
structure Event where
  Mod : Nat
  Key : Nat
  Ch : Char
deriving DecidableEq, Repr

/-- The `Edit` widget state (edit.go lines 29-44), together with the anchor
`x`/`y` of the embedded `Widget`, the owning window's current dimensions
`wx`/`wy` (`e.w.x`, `e.w.y`), and `tgt`, the contents of the externally
owned string `*e.target`.  The Go field `at` (start of displayed text) is
named `viewAt` because `at` is a Lean keyword. -/
structure EditState where
  x : Int
  y : Int
  trueX : Int
  trueY : Int
  trueW : Int
  display : List Char
  viewAt : Int
  width : Int
  cx : Int
  cy : Int
  prevX : Int
  prevY : Int
  wx : Int
  wy : Int
  tgt : List Char
deriving DecidableEq, Repr

/-- `insert` (edit.go lines 84-93): grow the slice by one, `copy` the tail
one position right (Go's `copy` has memmove semantics on overlap), store
the value.  For `index ≤ len` the result is
`take index ++ [value] ++ drop index`. -/
def insertRune (slice : List Char) (index : Nat) (value : Char) : List Char :=
  slice.take index ++ [value] ++ slice.drop index

/-- The rune of a key event after the `KeySpace` case of the switch, which
sets `ev.Ch = ' '` and falls out of the switch. -/
def evCh (ev : Event) : Char := if ev.Key = keySpace then ' ' else ev.Ch

/-- The local `inString := e.cx - e.trueX + e.at` of `KeyHandler`: the
caret's buffer index. -/
def inStr (e : EditState) : Int := e.cx - e.trueX + e.viewAt

/-- The cursor column the Backspace "cursor left magic" assigns when
`cx == trueX + 1` (edit.go lines 177-181). -/
def bsCx (e : EditState) : Int :=
  if e.viewAt > e.trueW - 1 then e.trueW - 1 else e.viewAt + e.trueX

/-- The viewport offset after the Backspace "cursor left magic"
(edit.go lines 182-184), computed against the fresh cursor column. -/
def bsAt (e : EditState) : Int :=
  if e.viewAt ≥ bsCx e then e.viewAt - bsCx e else e.viewAt

/-- `Edit.KeyHandler` (edit.go lines 97-220).  Returns `none` where the Go
code would panic on a slice expression with an out-of-range index, and
otherwise `some` of the new state and the handled/consumed flag.
`Render`/`setCursor` calls mutate no widget state and are omitted. -/
def keyHandlerGo (e : EditState) (ev : Event) : Option (EditState × Bool) :=
  if ev.Key = keyCtrlA ∨ ev.Key = keyHome then
    some ({ e with cx := e.trueX, viewAt := 0 }, true)
  else if ev.Key = keyCtrlE ∨ ev.Key = keyEnd then
    if (e.display.length : Int) < e.trueW - 1 then
      some ({ e with cx := e.trueX + e.display.length - e.viewAt }, true)
    else
      some ({ e with cx := e.trueX + e.trueW - 1,
                     viewAt := (e.display.length : Int) - e.trueW + 1 }, true)
  else if ev.Key = keyCtrlU then
    some ({ e with cx := e.trueX, viewAt := 0, display := [] }, true)
  else if ev.Key = keyArrowRight then
    -- `e.display[e.at:]` panics unless 0 ≤ at ≤ len
    if ¬(0 ≤ e.viewAt ∧ e.viewAt ≤ (e.display.length : Int)) then none
    else if e.cx - e.trueX = (e.display.length : Int) - e.viewAt then some (e, true)
    else if e.cx + 1 > e.trueW + e.trueX - 1 then
      if (e.display.length : Int) - e.viewAt = 0 then
        some ({ e with cx := e.trueW + e.trueX - 1 }, true)
      else some ({ e with cx := e.trueW + e.trueX - 1, viewAt := e.viewAt + 1 }, true)
    else some ({ e with cx := e.cx + 1 }, true)
  else if ev.Key = keyArrowLeft then
    if e.cx - 1 < e.trueX then
      some ({ e with cx := e.trueX,
                     viewAt := if e.viewAt - 1 < 0 then 0 else e.viewAt - 1 }, true)
    else some ({ e with cx := e.cx - 1 }, true)
  else if ev.Key = keyDelete then
    if (e.display.length : Int) = inStr e then some (e, true)
    else
      -- `display[:inString]` / `display[inString+1:]` panic out of range
      if ¬(0 ≤ inStr e ∧ inStr e + 1 ≤ (e.display.length : Int)) then none
      else
        some ({ e with display :=
          e.display.take (inStr e).toNat ++ e.display.drop ((inStr e).toNat + 1) }, true)
  else if ev.Key = keyBackspace ∨ ev.Key = keyBackspace2 then
    if inStr e ≤ 0 then some (e, true)
    else if ¬(inStr e ≤ (e.display.length : Int)) then none
    else
      if e.cx = e.trueX + 1 then
        -- the "cursor left magic" special case (edit.go lines 176-184)
        some ({ e with
          display := e.display.take ((inStr e).toNat - 1) ++ e.display.drop (inStr e).toNat,
          cx := bsCx e, viewAt := bsAt e }, true)
      else
        some ({ e with
          display := e.display.take ((inStr e).toNat - 1) ++ e.display.drop (inStr e).toNat,
          cx := e.cx - 1 }, true)
  else if ev.Key = keyEnter then
    -- *e.target = string(e.display); not consumed
    some ({ e with tgt := e.display }, false)
  else
    if evCh ev ≠ Char.ofNat 0 ∧ ev.Mod ≠ 0 ∧ ev.Key = 0 then some (e, false)
    else if evCh ev = Char.ofNat 0 then some (e, false)
    else
      if ¬(0 ≤ inStr e ∧ inStr e ≤ (e.display.length : Int)) then none
      else
        if e.cx < e.trueW + e.trueX - 1 then
          some ({ e with
            display := insertRune e.display (inStr e).toNat (evCh ev),
            cx := e.cx + 1 }, true)
        else
          some ({ e with
            display := insertRune e.display (inStr e).toNat (evCh ev),
            viewAt := e.viewAt + 1 }, true)

/-- `Edit.SetText` (edit.go lines 263-276): rebinds the target (so the
bound target's contents are `s`), copies it into the display buffer,
resets the viewport and sends a synthesized CtrlE/CtrlA key. -/
def setTextGo (e : EditState) (s : List Char) (toEnd : Bool) : Option EditState :=
  let e1 := { e with tgt := s, display := s, viewAt := 0 }
  let ev : Event :=
    { Mod := 0, Key := if toEnd then keyCtrlE else keyCtrlA, Ch := Char.ofNat 0 }
  (keyHandlerGo e1 ev).map Prod.fst

/-- `Edit.Resize` (edit.go lines 278-328), after the window updated its
dimensions to `wx`/`wy` (`Window.resize` sets `w.x`, `w.y` before calling
widget `Resize`).  The Go method mutates the fields one by one; here each
new field value is computed from the pre-call state it actually reads
(`inString` uses the old `trueX`; the `prevX`/`prevY` comparisons use
their old values; the cursor cases use the fresh `trueX`/`trueW`), and a
single record per branch holds the result. -/
def resizeGo (e : EditState) (wx wy : Int) : EditState :=
  let inString := e.cx - e.trueX + e.viewAt
  let trueX := e.x
  let trueY := if e.y < 0 then wy + e.y + 1 else e.y
  let trueW := if e.width < 1 then wx - e.x + e.width else e.width
  let cy := if wy ≠ e.prevY then trueY else e.cy
  let prevY := if wy ≠ e.prevY then wy else e.prevY
  if wx ≠ e.prevX then
    if (e.display.length : Int) = inString then
      if (e.display.length : Int) < trueW - 1 then
        { e with wx := wx, wy := wy, trueX := trueX, trueY := trueY, trueW := trueW,
                 cy := cy, prevY := prevY, prevX := wx,
                 cx := trueX + e.display.length, viewAt := 0 }
      else
        { e with wx := wx, wy := wy, trueX := trueX, trueY := trueY, trueW := trueW,
                 cy := cy, prevY := prevY, prevX := wx,
                 cx := trueX + trueW - 1,
                 viewAt := (e.display.length : Int) - trueW + 1 }
    else if inString ≤ 0 then
      { e with wx := wx, wy := wy, trueX := trueX, trueY := trueY, trueW := trueW,
               cy := cy, prevY := prevY, prevX := wx,
               viewAt := 0, cx := trueX }
    else if e.prevX ≤ wx then
      { e with wx := wx, wy := wy, trueX := trueX, trueY := trueY, trueW := trueW,
               cy := cy, prevY := prevY, prevX := wx }
    else if e.cx ≥ wx then
      { e with wx := wx, wy := wy, trueX := trueX, trueY := trueY, trueW := trueW,
               cy := cy, prevY := prevY, prevX := wx,
               cx := e.cx - (e.prevX - wx), viewAt := e.viewAt + (e.prevX - wx) }
    else
      { e with wx := wx, wy := wy, trueX := trueX, trueY := trueY, trueW := trueW,
               cy := cy, prevY := prevY, prevX := wx }
  else
    { e with wx := wx, wy := wy, trueX := trueX, trueY := trueY, trueW := trueW,
             cy := cy, prevY := prevY }

/-- `Edit.Focus` (edit.go lines 230-238). -/
def focusGo (e : EditState) : EditState :=
  if e.cx = -1 ∨ e.cy = -1 then { e with cx := e.trueX, cy := e.trueY, viewAt := 0 }
  else e

/-- The concrete Edit widget of the C4 failing scenario: anchored at
`x = 1` with declared width 10 in a 20x5 window (as `AddEdit(1, 0, 10, _)`
sets it up after its initial `Resize`). -/
def c4edit : EditState :=
  { x := 1, y := 0, trueX := 1, trueY := 0, trueW := 10,
    display := [], viewAt := 0, width := 10, cx := -1, cy := -1,
    prevX := 20, prevY := 5, wx := 20, wy := 5, tgt := [] }

/-- An 18-rune target text. -/
def c4text : List Char := "abcdefghijklmnopqr".data

/-- Deliver one special key to an Edit state. -/
def c4step (k : Nat) (s : Option EditState) : Option EditState :=
  s.bind fun e =>
    (keyHandlerGo e { Mod := 0, Key := k, Ch := Char.ofNat 0 }).map Prod.fst

/-- The C4 failing run: `SetText(text, end)` (which sends CtrlE), then
eight ArrowLeft keys, then one Backspace. -/
def c4run : Option EditState :=
  (List.replicate 8 keyArrowLeft ++ [keyBackspace]).foldl
    (fun s k => c4step k s) (setTextGo c4edit c4text true)

/-- The concrete Edit widget of the C10 witness. -/
def c10edit : EditState := { c4edit with tgt := ['q'] }

/-- The state `keyHandlerGo` produces for a CtrlU key on `c10edit`. -/
def c10res : EditState × Bool :=
  ({ c10edit with cx := c10edit.trueX, viewAt := 0, display := [] }, true)

/-! ### List widget (list.go): claim C7. -/

/-- Widget visibility (widget.go lines 32-38). -/
inductive Visibility
  | vGet
  | vHide
  | vShow
deriving DecidableEq, Repr

/-- The `List` widget state (list.go lines 31-44).  The Go field `at` (top
line being displayed) is named `viewAt` because `at` is a Lean keyword. -/
structure ListState where
  width : Int
  height : Int
  trueW : Int
  trueH : Int
  trueX : Int
  trueY : Int
  viewAt : Int
  paging : Bool
  content : List (List Char)
  visibility : Visibility
deriving DecidableEq, Repr

/-- Positioning hints for `List.Display` (list.go lines 187-195). -/
inductive Location
  | top
  | bottom
  | up
  | down
  | current
deriving DecidableEq, Repr

/-- The `Bottom` case of `List.Display`: `at = len(c) - trueH`, clamped at
0, and `paging = false`. -/
def displayBottom (l : ListState) : ListState :=
  { l with
    viewAt :=
      if (l.content.length : Int) - l.trueH < 0 then 0
      else (l.content.length : Int) - l.trueH,
    paging := false }

/-- The state transition of `List.Display` (list.go lines 199-301).  Only
the `switch where` header mutates widget state (`at`, `paging`); the
wrap-and-clip rendering that follows prints to the window and changes no
`List` field, so it is not modelled.  `Display(Down)` re-enters
`Display(Bottom)` when fewer than a full page lies below, whose guard
checks pass exactly when the outer ones did. -/
def DisplayGo (l : ListState) (loc : Location) : ListState :=
  if l.content.length = 0 ∨ l.visibility = Visibility.vHide then l
  else
    match loc with
    | Location.current => l
    | Location.top =>
        if (l.content.length : Int) > l.trueH then
          { l with viewAt := 0, paging := true }
        else l
    | Location.bottom => displayBottom l
    | Location.up =>
        { l with
          viewAt :=
            if l.viewAt - l.trueH + 1 < 0 then 0 else l.viewAt - l.trueH + 1,
          paging := true }
    | Location.down =>
        if l.viewAt + l.trueH - 1 + l.trueH > (l.content.length : Int) then
          displayBottom l
        else { l with viewAt := l.viewAt + l.trueH - 1, paging := true }

/-- `List.IsPaging` (list.go lines 305-307). -/
def IsPaging (l : ListState) : Bool := l.paging

/-- The concrete list of the C7 counterexample and witness: height 2,
four content lines, showing the bottom (`at = 2`), not paging. -/
def c7list : ListState :=
  { width := 10, height := 2, trueW := 10, trueH := 2, trueX := 0, trueY := 0,
    viewAt := 2, paging := false, content := [['a'], ['b'], ['c'], ['d']],
    visibility := Visibility.vShow }

/-! ### Window focus navigation (window.go): claim C8. -/

/-- The focus-relevant window state: each widget reduced to its `CanFocus`
answer, plus the focused-widget index (`-1` = none). -/
structure WinState where
  widgets : List Bool
  focus : Int
deriving DecidableEq, Repr

/-- A countdown scan `for i := start; i > stop; i--` returning the first
(i.e. highest) index whose widget reports focusable.  Out-of-range indices
read `false` (`getD`); the callers below only scan in range. -/
def scanKeyDown (ws : List Bool) (stop : Nat) : Nat → Option Nat
  | 0 => none
  | j + 1 =>
      if j + 1 ≤ stop then none
      else if ws.getD (j + 1) false then some (j + 1)
      else scanKeyDown ws stop j

/-- `Window.focusWidget` (window.go lines 131-152): with a negative focus
index it focuses the first focusable widget; otherwise it re-focuses the
stored index (no state change; the `focus > len` bounds check returns, and
the `focus = len` Go panic at `w.widgets[w.focus]` is unreachable from
`focusPrevious`, which calls this only with a negative index). -/
def focusWidgetGo (w : WinState) : WinState :=
  if w.focus < 0 then
    match w.widgets.findIdx? (fun b => b) with
    | some j => { w with focus := (j : Int) }
    | none => w
  else w

/-- `Window.focusPrevious` (window.go lines 189-222): decrement the index;
if negative, fall back to `focusWidget`; otherwise scan backward from the
decremented index down to (and including) index 1, then wrap scanning from
the last index down to (and excluding) the decremented index; if both
scans fail the decremented index is left in place. -/
def focusPreviousGo (w : WinState) : WinState :=
  if w.focus - 1 < 0 then focusWidgetGo { w with focus := w.focus - 1 }
  else
    match scanKeyDown w.widgets 0 (w.focus - 1).toNat with
    | some j => { w with focus := (j : Int) }
    | none =>
        match scanKeyDown w.widgets (w.focus - 1).toNat (w.widgets.length - 1) with
        | some j => { w with focus := (j : Int) }
        | none => { w with focus := w.focus - 1 }

/-- The greatest index `j ∈ [lo, hi]` whose widget is focusable (the
elements of the reversed range are the candidate indices, searched
downward). -/
def lastFocusableIn (ws : List Bool) (lo hi : Nat) : Option Nat :=
  ((List.range' lo (hi + 1 - lo)).reverse).find? (fun j => ws.getD j false)

/-- Declarative description of what `focusPrevious` actually does (the
amended C8): from index `i`, if `i = 0` focus the first focusable widget
of the whole list (possibly `i` itself), else prefer the greatest
focusable index in `[1, i-1]` — index 0 is never examined — then the
greatest focusable index in `[i, n-1]` — which includes `i` itself — and
otherwise leave the focus at `i - 1` (not a no-op). -/
def focusPrevSpec (w : WinState) : WinState :=
  if w.focus - 1 < 0 then
    match w.widgets.findIdx? (fun b => b) with
    | some j => { w with focus := (j : Int) }
    | none => { w with focus := w.focus - 1 }
  else
    match lastFocusableIn w.widgets 1 (w.focus - 1).toNat with
    | some j => { w with focus := (j : Int) }
    | none =>
        match lastFocusableIn w.widgets ((w.focus - 1).toNat + 1)
            (w.widgets.length - 1) with
        | some j => { w with focus := (j : Int) }
        | none => { w with focus := w.focus - 1 }

/-- C1: for every (attribute, foreground, background) triple whose non-NA
fields lie in their valid enumerations and that is not all-NA,
`DecodeColor (Color at fg bg)` succeeds, returns the attributes a direct
construction from the triple produces, and consumes the whole encoded
sequence. -/
theorem color_decodeColor_roundTrip :
    ∀ atr ∈ ([AttrNA, AttrReset, AttrBold, AttrUnderline, AttrReverse] : List Int),
    ∀ fg ∈ ([AttrNA, 0, 1, 2, 3, 4, 5, 6, 7] : List Int),
    ∀ bg ∈ ([AttrNA, 0, 1, 2, 3, 4, 5, 6, 7] : List Int),
    ¬(atr = AttrNA ∧ fg = AttrNA ∧ bg = AttrNA) →
    roundTripOK atr fg bg = true := by
  decide

/-- C1 witness: the spec's escape round-trip scenario,
`Color AttrBold ColorRed AttrNA`. -/
theorem color_decodeColor_roundTrip_witness :
    roundTripOK AttrBold ColorRed AttrNA = true :=
  color_decodeColor_roundTrip AttrBold (by decide) ColorRed (by decide)
    AttrNA (by decide) (by decide)

/-- C2 counterexample: on `"\x1b[xm"` the field `"x"` fails `Atoi`, and
`DecodeColor` returns the `Atoi` error (ttk.go line 120), which is not
`ErrNotEscSequence` — refuting the claim that every integer-parse failure
yields exactly `NotEscapeSequence`. -/
theorem decodeColor_atoi_error_not_notEsc :
    DecodeColor [escCh, '[', 'x', 'm'] = Except.error DecodeErr.atoiErr ∧
    DecodeErr.atoiErr ≠ DecodeErr.notEscSequence := by
  decide

/-- A recognized field steps `procParams` to the remaining fields with
some updated accumulator and found-`m` flag. -/
lemma procParams_cons_good (dfg dbg : Nat) (v : List Char)
    (rest : List (List Char)) (a : Attributes) (f : Bool) {n : Int}
    (hn : atoi (stripM v) = some n) (hrec : recognizedB n = true) :
    ∃ a' f', procParams dfg dbg (v :: rest) a f = procParams dfg dbg rest a' f' := by
  by_cases hm : v.getLast? = some 'm' <;>
    (first
      | rw [stripM, if_pos hm] at hn
      | rw [stripM, if_neg hm] at hn) <;>
    simp only [procParams, hm, ite_true, ite_false, hn] <;>
    split_ifs with h1 h2 h3 h4 h5 h6 <;>
    first
      | exact ⟨_, _, rfl⟩
      | (exfalso
         simp only [recognizedB, AttrReset, AttrBold, AttrUnderline, AttrReverse,
           ANSIFg, ANSIBg, ColorBlack, ColorWhite, decide_eq_true_eq,
           decide_eq_false_iff_not] at *
         omega)

/-- If the fields before `v` are all recognized and `v` fails `Atoi`, the
parameter fold returns the `Atoi` error. -/
lemma procParams_first_atoiErr (dfg dbg : Nat) :
    ∀ (ps1 : List (List Char)) (v : List Char) (ps2 : List (List Char))
      (a : Attributes) (f : Bool),
      (∀ u ∈ ps1, ∃ m, atoi (stripM u) = some m ∧ recognizedB m = true) →
      atoi (stripM v) = none →
      procParams dfg dbg (ps1 ++ v :: ps2) a f = Except.error DecodeErr.atoiErr := by
  intro ps1
  induction ps1 with
  | nil =>
      intro v ps2 a f _ hv
      by_cases hm : v.getLast? = some 'm' <;>
        (first
          | rw [stripM, if_pos hm] at hv
          | rw [stripM, if_neg hm] at hv) <;>
        simp [procParams, hm, hv]
  | cons u rest1 ih =>
      intro v ps2 a f hgood hv
      obtain ⟨m, hmv, hrec⟩ := hgood u (by simp)
      obtain ⟨a', f', heq⟩ :=
        procParams_cons_good dfg dbg u (rest1 ++ v :: ps2) a f hmv hrec
      rw [List.cons_append, heq]
      exact ih v ps2 a' f' (fun u' hu' => hgood u' (by simp [hu'])) hv

/-- If the fields before `v` are all recognized and `v` parses to an
unrecognized value, the parameter fold returns `NotEscapeSequence`. -/
lemma procParams_first_rangeErr (dfg dbg : Nat) :
    ∀ (ps1 : List (List Char)) (v : List Char) (ps2 : List (List Char))
      (a : Attributes) (f : Bool) {n : Int},
      (∀ u ∈ ps1, ∃ m, atoi (stripM u) = some m ∧ recognizedB m = true) →
      atoi (stripM v) = some n → recognizedB n = false →
      procParams dfg dbg (ps1 ++ v :: ps2) a f =
        Except.error DecodeErr.notEscSequence := by
  intro ps1
  induction ps1 with
  | nil =>
      intro v ps2 a f n _ hv hrec
      by_cases hm : v.getLast? = some 'm' <;>
        (first
          | rw [stripM, if_pos hm] at hv
          | rw [stripM, if_neg hm] at hv) <;>
        simp only [List.nil_append, procParams, hm, ite_true, ite_false, hv] <;>
        split_ifs with h1 h2 h3 h4 h5 h6 <;>
        first
          | rfl
          | (exfalso
             simp only [recognizedB, AttrReset, AttrBold, AttrUnderline, AttrReverse,
               ANSIFg, ANSIBg, ColorBlack, ColorWhite,
               decide_eq_false_iff_not, decide_eq_true_eq] at *
             omega)
  | cons u rest1 ih =>
      intro v ps2 a f n hgood hv hrec
      obtain ⟨m, hmv, hrecu⟩ := hgood u (by simp)
      obtain ⟨a', f', heq⟩ :=
        procParams_cons_good dfg dbg u (rest1 ++ v :: ps2) a f hmv hrecu
      rw [List.cons_append, heq]
      exact ih v ps2 a' f' (fun u' hu' => hgood u' (by simp [hu'])) hv hrec

/-- C2 (amended): `DecodeColor` fails with exactly `NotEscapeSequence`
when the input does not begin with `"\x1b["` or when the `'m'` terminator
is missing; scanning the semicolon-separated fields left to right, if the
first offending field parses as an integer outside the recognized ranges
the error is `NotEscapeSequence`, and if it fails integer parsing the
error is the one propagated from `Atoi`, not `NotEscapeSequence`.  The
model is a total function, so no input panics. -/
theorem decodeColor_error_cases :
    (∀ s : List Char, s.take 2 ≠ [escCh, '['] →
      DecodeColor s = Except.error DecodeErr.notEscSequence) ∧
    (∀ s : List Char, 'm' ∉ s.drop 2 →
      DecodeColor s = Except.error DecodeErr.notEscSequence) ∧
    (∀ (s : List Char) (ps1 : List (List Char)) (v : List Char)
       (ps2 : List (List Char)) (n : Int),
      s.take 2 = [escCh, '['] →
      paramsOf s = ps1 ++ v :: ps2 →
      (∀ u ∈ ps1, ∃ m, atoi (stripM u) = some m ∧ recognizedB m = true) →
      atoi (stripM v) = some n → recognizedB n = false →
      DecodeColor s = Except.error DecodeErr.notEscSequence) ∧
    (∀ (s : List Char) (ps1 : List (List Char)) (v : List Char)
       (ps2 : List (List Char)),
      s.take 2 = [escCh, '['] →
      paramsOf s = ps1 ++ v :: ps2 →
      (∀ u ∈ ps1, ∃ m, atoi (stripM u) = some m ∧ recognizedB m = true) →
      atoi (stripM v) = none →
      DecodeColor s = Except.error DecodeErr.atoiErr) := by
  refine ⟨?_, ?_, ?_, ?_⟩
  · intro s h
    simp only [DecodeColor, decodeColorWith, if_pos h]
  · intro s h
    by_cases hp : s.take 2 = [escCh, '[']
    · have hnone : (s.drop 2).findIdx? (· = 'm') = none := by
        rw [List.findIdx?_eq_none_iff]
        intro x hx
        simp only [decide_eq_false_iff_not]
        exact fun hxm => h (hxm ▸ hx)
      simp only [DecodeColor, decodeColorWith, hnone]
      split
      · rfl
      · rfl
    · simp only [DecodeColor, decodeColorWith, if_pos hp]
  · intro s ps1 v ps2 n hpre hps hgood hv hrec
    cases hfi : (s.drop 2).findIdx? (· = 'm') with
    | none =>
        rw [paramsOf, hfi] at hps
        exact absurd hps (by simp)
    | some i =>
        have hsplit : ((s.drop 2).take (i + 1)).splitOn ';' = ps1 ++ v :: ps2 := by
          rw [paramsOf, hfi] at hps
          exact hps
        simp only [DecodeColor, decodeColorWith, if_neg (not_not_intro hpre), hfi,
          hsplit, procParams_first_rangeErr fgDefault bgDefault ps1 v ps2 ⟨0, 0⟩
            false hgood hv hrec]
  · intro s ps1 v ps2 hpre hps hgood hv
    cases hfi : (s.drop 2).findIdx? (· = 'm') with
    | none =>
        rw [paramsOf, hfi] at hps
        exact absurd hps (by simp)
    | some i =>
        have hsplit : ((s.drop 2).take (i + 1)).splitOn ';' = ps1 ++ v :: ps2 := by
          rw [paramsOf, hfi] at hps
          exact hps
        simp only [DecodeColor, decodeColorWith, if_neg (not_not_intro hpre), hfi,
          hsplit, procParams_first_atoiErr fgDefault bgDefault ps1 v ps2 ⟨0, 0⟩
            false hgood hv]

/-- C2 amended-claim witness: each error class at a concrete input — bad
marker, missing terminator, out-of-range first field `99`, unparsable
first field `"x"`. -/
theorem decodeColor_error_cases_witness :
    DecodeColor ['a', 'b'] = Except.error DecodeErr.notEscSequence ∧
    DecodeColor [escCh, '[', '3', '1'] = Except.error DecodeErr.notEscSequence ∧
    DecodeColor [escCh, '[', '9', '9', 'm'] = Except.error DecodeErr.notEscSequence ∧
    DecodeColor [escCh, '[', 'x', 'm'] = Except.error DecodeErr.atoiErr :=
  ⟨decodeColor_error_cases.1 ['a', 'b'] (by decide),
   decodeColor_error_cases.2.1 [escCh, '[', '3', '1'] (by decide),
   decodeColor_error_cases.2.2.1 [escCh, '[', '9', '9', 'm'] []
     ['9', '9', 'm'] [] 99 (by decide) (by decide) (by simp) (by decide) (by decide),
   decodeColor_error_cases.2.2.2 [escCh, '[', 'x', 'm'] []
     ['x', 'm'] [] (by decide) (by decide) (by simp) (by decide)⟩

/-! ### Claim C3: idempotence of `Unescape`. -/

lemma findIdx?_some_bounds {α : Type} (p : α → Bool) :
    ∀ (l : List α) (i j : Nat), List.findIdx? p l i = some j → i ≤ j ∧ j < i + l.length := by
  intro l
  induction l with
  | nil => intro i j h; simp [List.findIdx?] at h
  | cons x xs ih =>
      intro i j h
      rw [List.findIdx?_cons] at h
      by_cases hp : p x = true
      · rw [if_pos hp] at h
        cases h
        simp
      · rw [if_neg hp] at h
        obtain ⟨h1, h2⟩ := ih (i + 1) j h
        constructor
        · omega
        · simpa [Nat.add_comm, Nat.add_assoc, Nat.add_left_comm] using h2

/-- A successful `DecodeColor` consumes at least one and at most all
characters: `skip` is the index of the first `'m'` plus one. -/
lemma decodeColorWith_skip_bounds {dfg dbg : Nat} {s : List Char} {a : Attributes}
    {k : Nat} (h : decodeColorWith dfg dbg s = Except.ok (a, k)) :
    1 ≤ k ∧ k ≤ s.length := by
  unfold decodeColorWith at h
  split at h
  · cases h
  · split at h
    · cases h
    · simp only [] at h
      split at h
      · cases h
      · split at h
        · cases h
        · split at h
          · cases h
          · rename_i skip hfind
            cases h
            obtain ⟨_, h2⟩ := findIdx?_some_bounds _ s 0 skip hfind
            omega

lemma decodableAll_of_suffix {s t : List Char} (h : decodableAll s)
    (hst : t <:+ s) : decodableAll t := by
  intro u hu hhead
  exact h u ((List.mem_tails u s).mpr ((List.mem_tails u t).mp hu |>.trans hst)) hhead

/-- On a string without the escape character, the `Unescape` loop copies
its input verbatim. -/
lemma unescapeFuel_id_of_no_esc :
    ∀ (fuel : Nat) (s : List Char), escCh ∉ s → s.length ≤ fuel →
      unescapeFuel fuel s = s := by
  intro fuel
  induction fuel with
  | zero =>
      intro s _ hlen
      rw [List.length_eq_zero.mp (Nat.le_zero.mp hlen)]
      rfl
  | succ fuel ih =>
      intro s hmem hlen
      match s with
      | [] => rfl
      | c :: rest =>
          have hc : ¬(c = escCh) := fun hc => hmem (by simp [hc])
          simp only [unescapeFuel, if_neg hc]
          rw [ih rest (fun hr => hmem (by simp [hr])) (by simpa using Nat.lt_succ_iff.mp hlen)]

/-- If every escape-headed suffix of `s` decodes, the output of the
`Unescape` loop contains no escape character at all. -/
lemma unescapeFuel_no_esc :
    ∀ (fuel : Nat) (s : List Char), s.length ≤ fuel → decodableAll s →
      escCh ∉ unescapeFuel fuel s := by
  intro fuel
  induction fuel with
  | zero => intro s _ _ h; cases h
  | succ fuel ih =>
      intro s hlen hdec
      match s with
      | [] => intro h; cases h
      | c :: rest =>
          by_cases hc : c = escCh
          · have hok := hdec (c :: rest) ((List.mem_tails _ _).mpr List.suffix_rfl)
              (by rw [hc]; rfl)
            simp only [unescapeFuel, if_pos hc]
            match hdc : DecodeColor (c :: rest) with
            | Except.error e => rw [hdc] at hok; cases hok
            | Except.ok (a, k) =>
                obtain ⟨hk1, hk2⟩ := decodeColorWith_skip_bounds hdc
                exact ih ((c :: rest).drop k)
                  (by simp at hk2 hlen ⊢; omega)
                  (decodableAll_of_suffix hdec (List.drop_suffix k _))
          · simp only [unescapeFuel, if_neg hc, List.mem_cons]
            intro hor
            rcases hor with heq | hmem
            · exact hc heq.symm
            · exact ih rest (by simpa using Nat.lt_succ_iff.mp hlen)
                (decodableAll_of_suffix hdec (List.suffix_cons c rest)) hmem

/-- C3 counterexample: on the malformed input
`"\x1b[\x1b[31m31m"` the first decode fails (the field contains a nested
escape), so the leading `"\x1b["` is re-emitted literally while the inner
well-formed `"\x1b[31m"` is removed; the output `"\x1b[31m"` is itself a
well-formed sequence and a second `Unescape` removes it.  `Unescape` is
therefore not idempotent on arbitrary strings. -/
theorem unescape_not_idempotent :
    Unescape (Unescape [escCh, '[', escCh, '[', '3', '1', 'm', '3', '1', 'm']) ≠
      Unescape [escCh, '[', escCh, '[', '3', '1', 'm', '3', '1', 'm'] := by
  decide

/-- C3 (amended): `Unescape` is idempotent on every string in which each
suffix beginning with the escape character is a well-formed decodable
sequence; on such strings the output contains no escape character, so a
second pass is the identity.  (On malformed inputs idempotence can fail,
see `unescape_not_idempotent`.) -/
theorem unescape_idempotent (s : List Char) (h : decodableAll s) :
    Unescape (Unescape s) = Unescape s :=
  unescapeFuel_id_of_no_esc (Unescape s).length (Unescape s)
    (unescapeFuel_no_esc s.length s le_rfl h) le_rfl

/-- C3 amended-claim witness: a concrete well-formed string. -/
theorem unescape_idempotent_witness :
    decodableAll ['a', escCh, '[', '3', '1', 'm', 'b'] ∧
      Unescape (Unescape ['a', escCh, '[', '3', '1', 'm', 'b']) =
        Unescape ['a', escCh, '[', '3', '1', 'm', 'b'] :=
  ⟨by decide, unescape_idempotent _ (by decide)⟩

lemma unescapeFuel_cons_esc_ok {fuel : Nat} {c : Char} {rest : List Char}
    {cc : Attributes} {skip : Nat} (hc : c = escCh)
    (hdc : DecodeColor (c :: rest) = Except.ok (cc, skip)) :
    unescapeFuel (fuel + 1) (c :: rest) = unescapeFuel fuel ((c :: rest).drop skip) := by
  simp [unescapeFuel, if_pos hc, hdc]

lemma unescapeFuel_cons_esc_err {fuel : Nat} {c : Char} {rest : List Char}
    {e : DecodeErr} (hc : c = escCh)
    (hdc : DecodeColor (c :: rest) = Except.error e) :
    unescapeFuel (fuel + 1) (c :: rest) = c :: unescapeFuel fuel rest := by
  simp [unescapeFuel, if_pos hc, hdc]

lemma unescapeFuel_cons_plain {fuel : Nat} {c : Char} {rest : List Char}
    (hc : ¬(c = escCh)) :
    unescapeFuel (fuel + 1) (c :: rest) = c :: unescapeFuel fuel rest := by
  simp [unescapeFuel, if_neg hc]

lemma attrFuel_cons_esc_ok {fuel : Nat} {a : Attributes} {c : Char}
    {rest : List Char} {cc : Attributes} {skip : Nat} (hc : c = escCh)
    (hdc : DecodeColor (c :: rest) = Except.ok (cc, skip)) :
    attrFuel (fuel + 1) a (c :: rest) = attrFuel fuel cc ((c :: rest).drop skip) := by
  simp [attrFuel, if_pos hc, hdc]

lemma attrFuel_cons_esc_err {fuel : Nat} {a : Attributes} {c : Char}
    {rest : List Char} {e : DecodeErr} (hc : c = escCh)
    (hdc : DecodeColor (c :: rest) = Except.error e) :
    attrFuel (fuel + 1) a (c :: rest) = (c, a) :: attrFuel fuel a rest := by
  simp [attrFuel, if_pos hc, hdc]

lemma attrFuel_cons_plain {fuel : Nat} {a : Attributes} {c : Char}
    {rest : List Char} (hc : ¬(c = escCh)) :
    attrFuel (fuel + 1) a (c :: rest) = (c, a) :: attrFuel fuel a rest := by
  simp [attrFuel, if_neg hc]

/-- The glyphs of the annotated stream are exactly the `Unescape` scan:
the annotation adds attributes and changes nothing else. -/
lemma attrFuel_fst :
    ∀ (fuel : Nat) (a : Attributes) (s : List Char),
      (attrFuel fuel a s).map Prod.fst = unescapeFuel fuel s := by
  intro fuel
  induction fuel with
  | zero => intro a s; simp [attrFuel, unescapeFuel]
  | succ fuel ih =>
      intro a s
      match s with
      | [] => simp [attrFuel, unescapeFuel]
      | c :: rest =>
          by_cases hc : c = escCh
          · cases hdc : DecodeColor (c :: rest) with
            | ok v =>
                obtain ⟨cc, skip⟩ := v
                rw [attrFuel_cons_esc_ok hc hdc, unescapeFuel_cons_esc_ok hc hdc]
                exact ih cc ((c :: rest).drop skip)
            | error e =>
                rw [attrFuel_cons_esc_err hc hdc, unescapeFuel_cons_esc_err hc hdc,
                  List.map_cons, ih a rest]
          · rw [attrFuel_cons_plain hc, unescapeFuel_cons_plain hc,
              List.map_cons, ih a rest]

lemma printfAux_cons_break {fuel : Nat} {mx x y xx : Int} {cFg cBg : Nat}
    {c : Char} {rest : List Char} (h : x + xx + 1 > mx) :
    printfAux (fuel + 1) mx x y xx cFg cBg (c :: rest) = [] := by
  simp [printfAux, if_pos h]

lemma printfAux_cons_esc_ok {fuel : Nat} {mx x y xx : Int} {cFg cBg : Nat}
    {c : Char} {rest : List Char} {cc : Attributes} {skip : Nat}
    (hbreak : ¬(x + xx + 1 > mx)) (hc : c = escCh)
    (hdc : DecodeColor (c :: rest) = Except.ok (cc, skip)) :
    printfAux (fuel + 1) mx x y xx cFg cBg (c :: rest) =
      printfAux fuel mx x y xx cc.Fg cc.Bg ((c :: rest).drop skip) := by
  simp [printfAux, if_neg hbreak, if_pos hc, hdc]

lemma printfAux_cons_esc_err {fuel : Nat} {mx x y xx : Int} {cFg cBg : Nat}
    {c : Char} {rest : List Char} {e : DecodeErr}
    (hbreak : ¬(x + xx + 1 > mx)) (hc : c = escCh)
    (hdc : DecodeColor (c :: rest) = Except.error e) :
    printfAux (fuel + 1) mx x y xx cFg cBg (c :: rest) =
      ⟨x + xx, y, c, cFg, cBg⟩ :: printfAux fuel mx x y (xx + 1) cFg cBg rest := by
  simp [printfAux, if_neg hbreak, if_pos hc, hdc]

lemma printfAux_cons_plain {fuel : Nat} {mx x y xx : Int} {cFg cBg : Nat}
    {c : Char} {rest : List Char}
    (hbreak : ¬(x + xx + 1 > mx)) (hc : ¬(c = escCh)) :
    printfAux (fuel + 1) mx x y xx cFg cBg (c :: rest) =
      ⟨x + xx, y, c, cFg, cBg⟩ :: printfAux fuel mx x y (xx + 1) cFg cBg rest := by
  simp [printfAux, if_neg hbreak, if_neg hc]

lemma printfAux_glyphs :
    ∀ (fuel : Nat) (s : List Char), s.length ≤ fuel →
      ∀ (mx x y xx : Int) (cFg cBg : Nat),
        (printfAux fuel mx x y xx cFg cBg s).map CellWrite.ch =
          (unescapeFuel fuel s).take (mx - x - xx).toNat := by
  intro fuel
  induction fuel with
  | zero =>
      intro s hlen mx x y xx cFg cBg
      rw [List.length_eq_zero.mp (Nat.le_zero.mp hlen)]
      simp [printfAux, unescapeFuel]
  | succ fuel ih =>
      intro s hlen mx x y xx cFg cBg
      match s with
      | [] => simp [printfAux, unescapeFuel]
      | c :: rest =>
          by_cases hbreak : x + xx + 1 > mx
          · have h0 : (mx - x - xx).toNat = 0 := Int.toNat_eq_zero.mpr (by omega)
            simp [printfAux_cons_break hbreak, h0]
          · have hn : (mx - x - xx).toNat = (mx - x - (xx + 1)).toNat + 1 := by omega
            have hrest : rest.length ≤ fuel := by simpa using Nat.lt_succ_iff.mp hlen
            by_cases hc : c = escCh
            · cases hdc : DecodeColor (c :: rest) with
              | ok v =>
                  obtain ⟨cc, skip⟩ := v
                  obtain ⟨hk1, hk2⟩ := decodeColorWith_skip_bounds hdc
                  rw [printfAux_cons_esc_ok hbreak hc hdc, unescapeFuel_cons_esc_ok hc hdc]
                  exact ih ((c :: rest).drop skip)
                    (by simp at hk2 hlen ⊢; omega) mx x y xx cc.Fg cc.Bg
              | error e =>
                  rw [printfAux_cons_esc_err hbreak hc hdc, unescapeFuel_cons_esc_err hc hdc,
                    List.map_cons, hn, List.take_succ_cons,
                    ih rest hrest mx x y (xx + 1) cFg cBg]
            · rw [printfAux_cons_plain hbreak hc, unescapeFuel_cons_plain hc,
                List.map_cons, hn, List.take_succ_cons,
                ih rest hrest mx x y (xx + 1) cFg cBg]

lemma printfAux_attrs :
    ∀ (fuel : Nat) (s : List Char), s.length ≤ fuel →
      ∀ (mx x y xx : Int) (a : Attributes),
        (printfAux fuel mx x y xx a.Fg a.Bg s).map
            (fun w => (w.ch, Attributes.mk w.Fg w.Bg)) =
          (attrFuel fuel a s).take (mx - x - xx).toNat := by
  intro fuel
  induction fuel with
  | zero =>
      intro s hlen mx x y xx a
      rw [List.length_eq_zero.mp (Nat.le_zero.mp hlen)]
      simp [printfAux, attrFuel]
  | succ fuel ih =>
      intro s hlen mx x y xx a
      match s with
      | [] => simp [printfAux, attrFuel]
      | c :: rest =>
          by_cases hbreak : x + xx + 1 > mx
          · have h0 : (mx - x - xx).toNat = 0 := Int.toNat_eq_zero.mpr (by omega)
            simp [printfAux_cons_break hbreak, h0]
          · have hn : (mx - x - xx).toNat = (mx - x - (xx + 1)).toNat + 1 := by omega
            have hrest : rest.length ≤ fuel := by simpa using Nat.lt_succ_iff.mp hlen
            by_cases hc : c = escCh
            · cases hdc : DecodeColor (c :: rest) with
              | ok v =>
                  obtain ⟨cc, skip⟩ := v
                  obtain ⟨hk1, hk2⟩ := decodeColorWith_skip_bounds hdc
                  rw [printfAux_cons_esc_ok hbreak hc hdc, attrFuel_cons_esc_ok hc hdc]
                  exact ih ((c :: rest).drop skip)
                    (by simp at hk2 hlen ⊢; omega) mx x y xx cc
              | error e =>
                  rw [printfAux_cons_esc_err hbreak hc hdc, attrFuel_cons_esc_err hc hdc,
                    List.map_cons, hn, List.take_succ_cons,
                    ih rest hrest mx x y (xx + 1) a]
            · rw [printfAux_cons_plain hbreak hc, attrFuel_cons_plain hc,
                List.map_cons, hn, List.take_succ_cons,
                ih rest hrest mx x y (xx + 1) a]

lemma printfAux_cols :
    ∀ (fuel : Nat) (s : List Char) (mx x y xx : Int) (cFg cBg : Nat),
      (printfAux fuel mx x y xx cFg cBg s).map CellWrite.x =
        colSeq (x + xx) (printfAux fuel mx x y xx cFg cBg s).length := by
  intro fuel
  induction fuel with
  | zero => intro s mx x y xx cFg cBg; simp [printfAux, colSeq]
  | succ fuel ih =>
      intro s mx x y xx cFg cBg
      match s with
      | [] => simp [printfAux, colSeq]
      | c :: rest =>
          by_cases hbreak : x + xx + 1 > mx
          · simp [printfAux_cons_break hbreak, colSeq]
          · by_cases hc : c = escCh
            · cases hdc : DecodeColor (c :: rest) with
              | ok v =>
                  obtain ⟨cc, skip⟩ := v
                  rw [printfAux_cons_esc_ok hbreak hc hdc]
                  exact ih ((c :: rest).drop skip) mx x y xx cc.Fg cc.Bg
              | error e =>
                  rw [printfAux_cons_esc_err hbreak hc hdc]
                  simp only [List.map_cons, List.length_cons, colSeq]
                  rw [ih rest mx x y (xx + 1) cFg cBg]
                  norm_num [Int.add_assoc]
            · rw [printfAux_cons_plain hbreak hc]
              simp only [List.map_cons, List.length_cons, colSeq]
              rw [ih rest mx x y (xx + 1) cFg cBg]
              norm_num [Int.add_assoc]

lemma printfAux_rows :
    ∀ (fuel : Nat) (s : List Char) (mx x y xx : Int) (cFg cBg : Nat),
      (printfAux fuel mx x y xx cFg cBg s).map CellWrite.y =
        List.replicate (printfAux fuel mx x y xx cFg cBg s).length y := by
  intro fuel
  induction fuel with
  | zero => intro s mx x y xx cFg cBg; simp [printfAux]
  | succ fuel ih =>
      intro s mx x y xx cFg cBg
      match s with
      | [] => simp [printfAux]
      | c :: rest =>
          by_cases hbreak : x + xx + 1 > mx
          · simp [printfAux_cons_break hbreak]
          · by_cases hc : c = escCh
            · cases hdc : DecodeColor (c :: rest) with
              | ok v =>
                  obtain ⟨cc, skip⟩ := v
                  rw [printfAux_cons_esc_ok hbreak hc hdc]
                  exact ih ((c :: rest).drop skip) mx x y xx cc.Fg cc.Bg
              | error e =>
                  rw [printfAux_cons_esc_err hbreak hc hdc]
                  simp only [List.map_cons, List.length_cons, List.replicate_succ]
                  rw [ih rest mx x y (xx + 1) cFg cBg]
            · rw [printfAux_cons_plain hbreak hc]
              simp only [List.map_cons, List.length_cons, List.replicate_succ]
              rw [ih rest mx x y (xx + 1) cFg cBg]

/-- C5 counterexample: on a window of width 4, `printf(1, 0, a, "abc")`
writes only 2 glyphs, not `min(3, W - x) = 3`: the loop bound
`x + xx + 1 > mx` with `mx = w.x - x` subtracts `x` twice, so at most
`W - 2x` glyphs are written. -/
theorem printf_width_counterexample :
    (printfGo 4 1 0 ⟨0, 0⟩ ['a', 'b', 'c']).length = 2 ∧
    min (Unescape ['a', 'b', 'c']).length ((4 : Int) - 1).toNat = 3 ∧
    (2 : Nat) ≠ 3 := by
  decide

/-- C5 (amended): for `0 ≤ x < W`, `printf` writes the printable glyphs of
the text (escape sequences removed, exactly as `Unescape` computes them)
left-to-right into consecutive cells of row `y` starting at column `x`,
and it writes exactly `min(number of printable glyphs, max(0, W − 2x))`
glyphs — the loop stops after `W − 2x` cells, not after `W − x`.
Well-formed escape sequences consume no display columns and only switch
the active attributes: the glyph/attribute pairs written are exactly the
corresponding prefix of the annotated stream `attrWrites a out`, which
starts from the argument attributes, switches them at each successfully
decoded escape sequence, and whose glyph projection is `Unescape out`. -/
theorem printf_writes (wx x y : Int) (a : Attributes) (out : List Char)
    (hx : 0 ≤ x) (hxw : x < wx) :
    (printfGo wx x y a out).map CellWrite.ch = (Unescape out).take (wx - 2 * x).toNat ∧
    (printfGo wx x y a out).length = min (wx - 2 * x).toNat (Unescape out).length ∧
    (printfGo wx x y a out).map CellWrite.x = colSeq x (printfGo wx x y a out).length ∧
    (printfGo wx x y a out).map CellWrite.y =
      List.replicate (printfGo wx x y a out).length y ∧
    (printfGo wx x y a out).map (fun w => (w.ch, Attributes.mk w.Fg w.Bg)) =
      (attrWrites a out).take (wx - 2 * x).toNat ∧
    (attrWrites a out).map Prod.fst = Unescape out := by
  have hg := printfAux_glyphs out.length out le_rfl (wx - x) x y 0 a.Fg a.Bg
  have harith : wx - x - x - 0 = wx - 2 * x := by ring
  rw [harith] at hg
  have ha := printfAux_attrs out.length out le_rfl (wx - x) x y 0 a
  rw [harith] at ha
  refine ⟨hg, ?_, ?_, ?_, ha, ?_⟩
  · have := congrArg List.length hg
    simpa [Unescape, printfGo] using this
  · have hc := printfAux_cols out.length out (wx - x) x y 0 a.Fg a.Bg
    simpa [printfGo] using hc
  · exact printfAux_rows out.length out (wx - x) x y 0 a.Fg a.Bg
  · exact attrFuel_fst out.length a out

/-- C4 (code bug): after `SetText` to an 18-rune text, eight ArrowLeft and
one Backspace, the caret's buffer index `cx - trueX + at` is 18 while the
display buffer holds 17 runes — the invariant
`caret index ≤ len(display)` claimed by the spec is violated by the
backspace "cursor left magic" branch (edit.go lines 176-187), and a
subsequent Delete key would evaluate `display[19:]` and panic (`none`). -/
theorem edit_caret_invariant_bug :
    c4run.map (fun e => ((e.display.length : Int), e.cx - e.trueX + e.viewAt)) =
      some (17, 18) ∧
    ¬((18 : Int) ≤ 17) ∧
    c4step keyDelete c4run = none := by
  decide

/-! ### Claim C6: character insertion at the caret. -/

theorem edit_insert_at_caret (e : EditState) (ev : Event) (p : Int)
    (hkey : ev.Key = 0) (hmod : ev.Mod = 0) (hch : ev.Ch ≠ Char.ofNat 0)
    (hp : e.cx - e.trueX + e.viewAt = p) (hp0 : 0 ≤ p)
    (hpl : p ≤ (e.display.length : Int)) :
    (keyHandlerGo e ev).map Prod.snd = some true ∧
    (keyHandlerGo e ev).map (fun r => r.1.display.length) =
      some (e.display.length + 1) ∧
    (keyHandlerGo e ev).map (fun r => r.1.display.take p.toNat) =
      some (e.display.take p.toNat) ∧
    (keyHandlerGo e ev).map (fun r => r.1.display.get? p.toNat) = some (some ev.Ch) ∧
    (keyHandlerGo e ev).map (fun r => r.1.display.drop (p.toNat + 1)) =
      some (e.display.drop p.toNat) := by
  have hlen : p.toNat ≤ e.display.length := by omega
  have hres :
      keyHandlerGo e ev =
        if e.cx < e.trueW + e.trueX - 1 then
          some ({ e with display := insertRune e.display p.toNat ev.Ch,
                         cx := e.cx + 1 }, true)
        else
          some ({ e with display := insertRune e.display p.toNat ev.Ch,
                         viewAt := e.viewAt + 1 }, true) := by
    simp only [keyHandlerGo, evCh, inStr, hkey, hmod]
    norm_num [keyCtrlA, keyHome, keyCtrlE, keyEnd, keyCtrlU, keyArrowRight,
      keyArrowLeft, keyDelete, keyBackspace, keyBackspace2, keyEnter, keySpace,
      hch, hp, hp0, hpl]
  have hins : insertRune e.display p.toNat ev.Ch =
      (e.display.take p.toNat ++ [ev.Ch]) ++ e.display.drop p.toNat := rfl
  have htk : (e.display.take p.toNat).length = p.toNat := by
    simpa using Nat.min_eq_left hlen
  have hTake : (insertRune e.display p.toNat ev.Ch).take p.toNat =
      e.display.take p.toNat := by
    rw [hins, List.append_assoc, List.take_append_of_le_length htk.symm.le,
      List.take_take, Nat.min_self]
  have hGet : (insertRune e.display p.toNat ev.Ch)[p.toNat]? = some ev.Ch := by
    rw [hins, List.append_assoc, List.getElem?_append_right htk.le, htk]
    simp
  have hDrop : (insertRune e.display p.toNat ev.Ch).drop (p.toNat + 1) =
      e.display.drop p.toNat := by
    have hl : (e.display.take p.toNat ++ [ev.Ch]).length = p.toNat + 1 := by
      simp [htk]
    rw [hins, ← hl, List.drop_left]
  have hLen : (insertRune e.display p.toNat ev.Ch).length = e.display.length + 1 := by
    rw [hins]
    simp only [List.length_append, List.length_take, List.length_drop,
      List.length_singleton]
    omega
  rw [hres]
  split
  all_goals exact ⟨rfl, by simp [hLen], by simp [hTake],
    by simp [List.get?_eq_getElem?, hGet], by simp [hDrop]⟩

/-- C6 witness: inserting `'X'` into `"abc"` with the caret at buffer
position 1. -/
theorem edit_insert_at_caret_witness :
    (keyHandlerGo { c4edit with display := ['a', 'b', 'c'], cx := 2, viewAt := 0 }
        { Mod := 0, Key := 0, Ch := 'X' }).map Prod.snd = some true ∧
    (keyHandlerGo { c4edit with display := ['a', 'b', 'c'], cx := 2, viewAt := 0 }
        { Mod := 0, Key := 0, Ch := 'X' }).map (fun r => r.1.display.length) =
      some (['a', 'b', 'c'].length + 1) ∧
    (keyHandlerGo { c4edit with display := ['a', 'b', 'c'], cx := 2, viewAt := 0 }
        { Mod := 0, Key := 0, Ch := 'X' }).map (fun r => r.1.display.take (1 : Int).toNat) =
      some (['a', 'b', 'c'].take (1 : Int).toNat) ∧
    (keyHandlerGo { c4edit with display := ['a', 'b', 'c'], cx := 2, viewAt := 0 }
        { Mod := 0, Key := 0, Ch := 'X' }).map (fun r => r.1.display.get? (1 : Int).toNat) =
      some (some 'X') ∧
    (keyHandlerGo { c4edit with display := ['a', 'b', 'c'], cx := 2, viewAt := 0 }
        { Mod := 0, Key := 0, Ch := 'X' }).map (fun r => r.1.display.drop ((1 : Int).toNat + 1)) =
      some (['a', 'b', 'c'].drop (1 : Int).toNat) :=
  edit_insert_at_caret _ _ 1 rfl rfl (by decide) (by decide) (by decide) (by decide)

/-! ### Claim C10: the bound target is written only by the Enter branch. -/

lemma keyHandlerGo_tgt_of_ne_enter (e : EditState) (ev : Event)
    (r : EditState × Bool) (hne : ev.Key ≠ keyEnter)
    (h : keyHandlerGo e ev = some r) : r.1.tgt = e.tgt := by
  rw [keyHandlerGo] at h
  by_cases h1 : ev.Key = keyCtrlA ∨ ev.Key = keyHome
  · rw [if_pos h1] at h; cases h; rfl
  rw [if_neg h1] at h
  by_cases h2 : ev.Key = keyCtrlE ∨ ev.Key = keyEnd
  · rw [if_pos h2] at h
    split at h <;> (cases h; rfl)
  rw [if_neg h2] at h
  by_cases h3 : ev.Key = keyCtrlU
  · rw [if_pos h3] at h; cases h; rfl
  rw [if_neg h3] at h
  by_cases h4 : ev.Key = keyArrowRight
  · rw [if_pos h4] at h
    repeat' first
      | (cases h; rfl)
      | (cases h)
      | split at h
  rw [if_neg h4] at h
  by_cases h5 : ev.Key = keyArrowLeft
  · rw [if_pos h5] at h
    repeat' first
      | (cases h; rfl)
      | (cases h)
      | split at h
  rw [if_neg h5] at h
  by_cases h6 : ev.Key = keyDelete
  · rw [if_pos h6] at h
    repeat' first
      | (cases h; rfl)
      | (cases h)
      | split at h
  rw [if_neg h6] at h
  by_cases h7 : ev.Key = keyBackspace ∨ ev.Key = keyBackspace2
  · rw [if_pos h7] at h
    repeat' first
      | (cases h; rfl)
      | (cases h)
      | split at h
  rw [if_neg h7] at h
  rw [if_neg hne] at h
  repeat' first
    | (cases h; rfl)
    | (cases h)
    | split at h

/-- C10: the externally owned target string is written only by the
Enter-key branch of `KeyHandler`: every other key event leaves the bound
target's contents unchanged, as do `Resize` and `Focus`; `SetText` binds a
new target and leaves its contents equal to what they were before the
call. -/
theorem edit_target_written_only_by_enter :
    (∀ (e : EditState) (ev : Event) (r : EditState × Bool),
        ev.Key ≠ keyEnter → keyHandlerGo e ev = some r → r.1.tgt = e.tgt) ∧
    (∀ (e : EditState) (wx wy : Int), (resizeGo e wx wy).tgt = e.tgt) ∧
    (∀ e : EditState, (focusGo e).tgt = e.tgt) ∧
    (∀ (e : EditState) (s : List Char) (toEnd : Bool) (r : EditState),
        setTextGo e s toEnd = some r → r.tgt = s) := by
  refine ⟨keyHandlerGo_tgt_of_ne_enter, ?_, ?_, ?_⟩
  · intro e wx wy
    rw [resizeGo]
    repeat' first
      | rfl
      | split
  · intro e
    rw [focusGo]
    split <;> rfl
  · intro e s toEnd r h
    rw [setTextGo] at h
    obtain ⟨pr, hpr, hfst⟩ := Option.map_eq_some'.mp h
    have := keyHandlerGo_tgt_of_ne_enter _ _ _
      (by split <;> simp [keyCtrlE, keyCtrlA, keyEnter]) hpr
    rw [← hfst, this]

/-- C10 witness: a CtrlU key and a `Resize` leave the bound target's
contents unchanged on a concrete widget. -/
theorem edit_target_written_only_by_enter_witness :
    c10res.1.tgt = c10edit.tgt ∧ (resizeGo c10edit 30 10).tgt = c10edit.tgt :=
  ⟨edit_target_written_only_by_enter.1 c10edit
      { Mod := 0, Key := keyCtrlU, Ch := Char.ofNat 0 } c10res (by decide) (by decide),
   edit_target_written_only_by_enter.2.1 c10edit 30 10⟩

/-- C7 counterexample: from the bottom of 4 lines with height 2,
`Display(Up)` then `Display(Down)` restores `at = 2` but leaves `paging`
true — `IsPaging` does not report false again, because the `Down` case
only clears `paging` through the `Display(Bottom)` path, which is not
taken when a full page still fits below (list.go lines 228-235). -/
theorem list_up_down_not_tracking :
    (DisplayGo (DisplayGo c7list Location.up) Location.down).viewAt = 2 ∧
    IsPaging (DisplayGo (DisplayGo c7list Location.up) Location.down) = true := by
  decide

/-- C7 (amended): from the bottom view (`at = len − H`, `len > H ≥ 1`,
`paging = false`, widget visible), `Display(Up)` then `Display(Down)`
always restores the viewport offset `at = len − H`, but `IsPaging` reports
false again only when `len < 2·H − 1` (the page-down reaches the
`Display(Bottom)` path); when `len ≥ 2·H − 1` the widget remains in
paging state (`IsPaging` = true) even though the view is back at the
bottom. -/
theorem list_up_down_restores_bottom (l : ListState) (H L : Int)
    (hH : H = l.trueH) (hL : L = (l.content.length : Int))
    (h1 : 1 ≤ H) (hgt : H < L) (hat : l.viewAt = L - H)
    (hpag : l.paging = false) (hvis : l.visibility ≠ Visibility.vHide) :
    (DisplayGo (DisplayGo l Location.up) Location.down).viewAt = L - H ∧
    IsPaging (DisplayGo (DisplayGo l Location.up) Location.down) =
      decide (2 * H - 1 ≤ L) := by
  have hguard : ¬(l.content.length = 0 ∨ l.visibility = Visibility.vHide) := by
    push_neg
    exact ⟨by omega, hvis⟩
  simp only [DisplayGo, displayBottom, IsPaging, if_neg hguard]
  split_ifs <;> simp_all <;> omega

/-- C7 amended-claim witness on the concrete list (`L = 4`, `H = 2`, so
`L ≥ 2·H − 1` and paging remains true). -/
theorem list_up_down_restores_bottom_witness :
    (DisplayGo (DisplayGo c7list Location.up) Location.down).viewAt = 4 - 2 ∧
    IsPaging (DisplayGo (DisplayGo c7list Location.up) Location.down) =
      decide ((2 : Int) * 2 - 1 ≤ 4) :=
  list_up_down_restores_bottom c7list 2 4 (by decide) (by decide) (by decide)
    (by decide) (by decide) (by decide) (by decide)

lemma scanKeyDown_eq (ws : List Bool) (stop : Nat) :
    ∀ j : Nat, scanKeyDown ws stop j =
      ((List.range' (stop + 1) (j - stop)).reverse).find? (fun k => ws.getD k false) := by
  intro j
  induction j with
  | zero => simp [scanKeyDown, Nat.zero_sub]
  | succ j ih =>
      by_cases hle : j + 1 ≤ stop
      · have : j + 1 - stop = 0 := by omega
        simp [scanKeyDown, hle, this]
      · have hsub : j + 1 - stop = (j - stop) + 1 := by omega
        have hidx : stop + 1 + 1 * (j - stop) = j + 1 := by omega
        rw [scanKeyDown, if_neg hle, hsub, List.range'_concat, hidx,
          List.reverse_append, List.reverse_singleton, List.singleton_append,
          List.find?_cons]
        by_cases hw : ws[j + 1]?.getD false = true
        · simp [hw]
        · simp only [Bool.not_eq_true] at hw
          simp [hw, ih]

/-- C8 counterexample: widgets `[focusable, not, not]` with focus 2.  The
claim says `focusPrevious` scans backward down to and including index 0,
so it should focus widget 0; the code's backward loop
`for i := w.focus; i > 0; i--` never examines index 0 and the wrap loop
stops above the decremented index, so the focus is left at 1 — a
non-focusable widget. -/
theorem focusPrevious_skips_index_zero :
    (focusPreviousGo { widgets := [true, false, false], focus := 2 }).focus = 1 ∧
    ((1 : Int) ≠ 0) := by
  decide

/-- C8 (amended): for every window whose focused index satisfies
`0 ≤ i < n`, `focusPrevious` behaves as `focusPrevSpec` describes: from
`i = 0` it focuses the first focusable widget of the whole list; from
`i ≥ 1` it focuses the nearest focusable widget in `[1, i-1]` (index 0 is
never examined), failing that the highest focusable index in `[i, n-1]`
(which may be `i` itself), and if nothing is focusable it leaves the focus
at `i - 1` rather than performing no state change. -/
theorem focusPrevious_eq_spec (w : WinState) (h0 : 0 ≤ w.focus)
    (hn : w.focus < (w.widgets.length : Int)) :
    focusPreviousGo w = focusPrevSpec w := by
  rw [focusPreviousGo, focusPrevSpec]
  by_cases hf : w.focus - 1 < 0
  · rw [if_pos hf, if_pos hf, focusWidgetGo]
    rw [if_pos (by simpa using hf)]
  · rw [if_neg hf, if_neg hf]
    have h1 : scanKeyDown w.widgets 0 (w.focus - 1).toNat =
        lastFocusableIn w.widgets 1 (w.focus - 1).toNat := by
      rw [scanKeyDown_eq, lastFocusableIn]
      norm_num
    have h2 : scanKeyDown w.widgets (w.focus - 1).toNat (w.widgets.length - 1) =
        lastFocusableIn w.widgets ((w.focus - 1).toNat + 1) (w.widgets.length - 1) := by
      rw [scanKeyDown_eq, lastFocusableIn]
      have heq : w.widgets.length - 1 - (w.focus - 1).toNat =
          w.widgets.length - 1 + 1 - ((w.focus - 1).toNat + 1) := by omega
      rw [heq]
    rw [h1, h2]

/-- C8 amended-claim witness: on `[false, true, false]` with focus 2 the
implementation agrees with the declarative description (both focus the
nearest focusable widget 1). -/
theorem focusPrevious_eq_spec_witness :
    focusPreviousGo { widgets := [false, true, false], focus := 2 } =
      focusPrevSpec { widgets := [false, true, false], focus := 2 } ∧
    (focusPreviousGo { widgets := [false, true, false], focus := 2 }).focus = 1 :=
  ⟨focusPrevious_eq_spec { widgets := [false, true, false], focus := 2 }
      (by decide) (by decide),
   by decide⟩

/-- C5 amended-claim witness at `W = 10`, `x = 1`, on a text containing a
red escape sequence between two glyphs. -/
theorem printf_writes_witness :
    (printfGo 10 1 0 ⟨0, 0⟩ c5out).map CellWrite.ch =
        (Unescape c5out).take ((10 : Int) - 2 * 1).toNat ∧
    (printfGo 10 1 0 ⟨0, 0⟩ c5out).length =
        min ((10 : Int) - 2 * 1).toNat (Unescape c5out).length ∧
    (printfGo 10 1 0 ⟨0, 0⟩ c5out).map CellWrite.x =
        colSeq 1 (printfGo 10 1 0 ⟨0, 0⟩ c5out).length ∧
    (printfGo 10 1 0 ⟨0, 0⟩ c5out).map CellWrite.y =
        List.replicate (printfGo 10 1 0 ⟨0, 0⟩ c5out).length 0 ∧
    (printfGo 10 1 0 ⟨0, 0⟩ c5out).map (fun w => (w.ch, Attributes.mk w.Fg w.Bg)) =
        (attrWrites ⟨0, 0⟩ c5out).take ((10 : Int) - 2 * 1).toNat ∧
    (attrWrites ⟨0, 0⟩ c5out).map Prod.fst = Unescape c5out :=
  printf_writes 10 1 0 ⟨0, 0⟩ c5out (by decide) (by decide)

end ttk

